import Mathlib

/-!
Verification of the miniScroll effect/compositor core.

The Python sources under `EffectsEngine/` (effects.py, runner.py, Core/) are
embedded shallowly below.  Brightness values, which Python represents as
floats, are modelled as rationals: every arithmetic operation the engine
performs on them (addition, multiplication by decimal constants, `max`,
`min`, `abs`) is exact decimal arithmetic, so the rational model is faithful
for the fragment under study.  The one transcendental computation in the
claims (Sparkle's `math.sin`) is modelled over the reals in its own section.

Python dictionaries are modelled as insertion-ordered association lists:
`get(k, 0.0)` is the first-match lookup with default `0`, and assignment
replaces in place if the key is present, else appends.
-/

namespace MiniScroll

/-- A pixel sample `(x, y, brightness)` as produced by `BaseEffect.step`. -/
abbrev Sample : Type := Int × Int × ℚ

/-- The list of samples produced by one `step()` call. -/
abbrev Frame : Type := List Sample

/-- An insertion-ordered association list modelling a Python dict keyed by
pixel coordinate. -/
abbrev PixelDict : Type := List ((Int × Int) × ℚ)

/-- Python `dict.get(k, 0.0)`: brightness stored at key `k`, defaulting to `0`. -/
def dictGet : PixelDict → (Int × Int) → ℚ
  | [], _ => 0
  | p :: rest, k => if p.1 = k then p.2 else dictGet rest k

/-- Python `d[k] = v`: replace the value at `k` keeping its position, or append
`(k, v)` if the key is absent (insertion-order semantics of `dict`). -/
def dictSet : PixelDict → (Int × Int) → ℚ → PixelDict
  | [], k, v => [(k, v)]
  | p :: rest, k, v => if p.1 = k then (k, v) :: rest else p :: dictSet rest k v

/-- Python `[(x, y, b) for (x, y), b in pixels.items()]`. -/
def dictToFrame (d : PixelDict) : Frame :=
  d.map (fun p => (p.1.1, p.1.2, p.2))

/-- Embeds `clamp01` from `EffectsEngine/runner.py` (identical copy in
`EffectsEngine/Core/math.py`): `max(0.0, min(1.0, abs(v)))`. -/
def clamp01 (v : ℚ) : ℚ := max 0 (min 1 |v|)

/-- Spec-side rendering of `clamp(v, lo, hi)` used by the spec's sentence
`normalize(v) == clamp(|v|, 0, 1)`; stated independently of `clamp01`. -/
def clampSpec (lo hi v : ℚ) : ℚ := min hi (max lo v)

/-- Embeds the `BlendMode` enum of `EffectsEngine/effects.py`
(identical copy in `EffectsEngine/Core/blend.py`). -/
inductive BlendMode : Type
  | MAX
  | ADD
  | ALPHA_SOFT
  | ALPHA_HARD
  | OVERWRITE
deriving DecidableEq, Repr

/-- Embeds `blend(dst, src, mode)` from `EffectsEngine/effects.py` lines 50-59
(identical copy in `EffectsEngine/Core/blend.py`): a chain of equality tests
on the mode, falling through to `src` for OVERWRITE. -/
def blend (dst src : ℚ) (mode : BlendMode) : ℚ :=
  if mode = BlendMode.MAX then max dst src
  else if mode = BlendMode.ADD then dst + src
  else if mode = BlendMode.ALPHA_SOFT then dst * 0.75 + src * 0.25
  else if mode = BlendMode.ALPHA_HARD then dst * 0.4 + src * 0.6
  else src

/-- C4: for every rational `v`, `clamp01 v` is `clamp(|v|, 0, 1)` — the
absolute value is taken before clamping, so `clamp01 (-0.3) = 0.3`,
`clamp01 1.7 = 1`, `clamp01 0 = 0`, and a negative brightness is never
floored to zero. -/
theorem clamp01_is_clamp_of_abs :
    (∀ v : ℚ, clamp01 v = clampSpec 0 1 |v|)
    ∧ clamp01 (-0.3 : ℚ) = 0.3
    ∧ clamp01 (1.7 : ℚ) = 1
    ∧ clamp01 (0 : ℚ) = 0
    ∧ clamp01 (-0.3 : ℚ) ≠ 0 := by
  have ha : |(-0.3 : ℚ)| = 0.3 := by norm_num
  have hb : |(1.7 : ℚ)| = 1.7 := by norm_num
  refine ⟨fun v => ?_, ?_, ?_, by norm_num [clamp01], ?_⟩
  · have h1 : (0 : ℚ) ≤ |v| := abs_nonneg v
    have h2 : (0 : ℚ) ≤ min 1 |v| := le_min (by norm_num) h1
    rw [clamp01, clampSpec, max_eq_right h1, max_eq_right h2]
  · rw [clamp01, ha]; norm_num [min_def, max_def]
  · rw [clamp01, hb]; norm_num [min_def, max_def]
  · rw [clamp01, ha]; norm_num [min_def, max_def]

/-- C5: the blend-mode table — `MAX` is maximum, `ADD` is unclamped addition,
`ALPHA_SOFT` is `dst·0.75 + src·0.25`, `ALPHA_HARD` is `dst·0.4 + src·0.6`,
and `OVERWRITE` returns the source. -/
theorem blend_mode_table (dst src : ℚ) :
    blend dst src BlendMode.MAX = max dst src
    ∧ blend dst src BlendMode.ADD = dst + src
    ∧ blend dst src BlendMode.ALPHA_SOFT = dst * 0.75 + src * 0.25
    ∧ blend dst src BlendMode.ALPHA_HARD = dst * 0.4 + src * 0.6
    ∧ blend dst src BlendMode.OVERWRITE = src :=
  ⟨rfl, rfl, rfl, rfl, rfl⟩

/-- The `{step, reset, is_done}` capability contract of `BaseEffect`
(`EffectsEngine/effects.py` lines 62-91), over an explicit state type:
Python's mutation of `self` becomes explicit state passing. -/
structure EffectOps (σ : Type) where
  step : σ → σ × Frame
  reset : σ → σ
  is_done : σ → Bool

/-- An effect packaged with its state type and current state, so that
heterogeneous effects can sit in one layer list (Python's duck typing). -/
structure PEffect : Type 1 where
  State : Type
  ops : EffectOps State
  st : State

/-- Embeds `Layer` (`EffectsEngine/effects.py` lines 94-107): an effect
paired with a blend mode. -/
structure PLayer : Type 1 where
  eff : PEffect
  blend : BlendMode

/-- The inner `for x, y, b in layer.effect.step()` loop of
`LayeredEffect.step`: fold one frame into the accumulated pixel dict with
`pixels[key] = blend(pixels.get(key, 0.0), b, layer.blend)`. -/
def blendFrameInto (d : PixelDict) (mode : BlendMode) (f : Frame) : PixelDict :=
  f.foldl
    (fun acc s => dictSet acc (s.1, s.2.1) (blend (dictGet acc (s.1, s.2.1)) s.2.2 mode)) d

/-- Embeds the layer loop of `LayeredEffect.step`
(`EffectsEngine/effects.py` lines 123-134): for each layer in order, reset
the effect if it reports done, step it, and blend its frame into the
accumulated dict; returns the final dict and the updated layers. -/
def LayeredEffect.stepAux : PixelDict → List PLayer → PixelDict × List PLayer
  | d, [] => (d, [])
  | d, l :: rest =>
      let st0 := if l.eff.ops.is_done l.eff.st then l.eff.ops.reset l.eff.st else l.eff.st
      let out := l.eff.ops.step st0
      let d1 := blendFrameInto d l.blend out.2
      let r := LayeredEffect.stepAux d1 rest
      (r.1, ⟨⟨l.eff.State, l.eff.ops, out.1⟩, l.blend⟩ :: r.2)

/-- Embeds `LayeredEffect.step`: run the layer loop on an empty dict and
return the dict's items as the composite frame. -/
def LayeredEffect.step (layers : List PLayer) : List PLayer × Frame :=
  let r := LayeredEffect.stepAux [] layers
  (r.2, dictToFrame r.1)

/-- The state a layer's effect is actually stepped from on a compositor tick:
its reset state when it reported done at the start of the tick, otherwise its
current state. -/
def layerStartState (l : PLayer) : l.eff.State :=
  if l.eff.ops.is_done l.eff.st then l.eff.ops.reset l.eff.st else l.eff.st

/-- The frame a layer contributes to the composite on a tick. -/
def layerOutFrame (l : PLayer) : Frame :=
  (l.eff.ops.step (layerStartState l)).2

/-- Spec-side composite: blend a list of `(mode, frame)` contributions, in
order, into an accumulated pixel dict. -/
def compositeOfFrames (d : PixelDict) (entries : List (BlendMode × Frame)) : PixelDict :=
  entries.foldl (fun acc e => blendFrameInto acc e.1 e.2) d

theorem stepAux_fst (layers : List PLayer) :
    ∀ d : PixelDict,
      (LayeredEffect.stepAux d layers).1
        = compositeOfFrames d (layers.map (fun l => (l.blend, layerOutFrame l))) := by
  induction layers with
  | nil => intro d; rfl
  | cons l rest ih =>
      intro d
      simp only [LayeredEffect.stepAux, compositeOfFrames, List.map_cons, List.foldl_cons]
      exact ih _

/-- C1: on every `LayeredEffect.step` tick the composite output is built
exclusively from each layer's `layerOutFrame` — the frame stepped from the
reset state whenever the layer reported `is_done()` at the start of the tick —
so a layer that was done contributes its first post-reset frame on that very
tick and no frame from a done-but-not-reset state ever reaches the output. -/
theorem layered_step_auto_resets_done_layers :
    ∀ layers : List PLayer,
      (LayeredEffect.step layers).2
        = dictToFrame (compositeOfFrames [] (layers.map (fun l => (l.blend, layerOutFrame l))))
      ∧ ∀ l : PLayer, l.eff.ops.is_done l.eff.st = true →
          layerOutFrame l = (l.eff.ops.step (l.eff.ops.reset l.eff.st)).2 := by
  intro layers
  constructor
  · show dictToFrame (LayeredEffect.stepAux [] layers).1 = _
    rw [stepAux_fst]
  · intro l h
    rw [layerOutFrame, layerStartState, if_pos h]

/-- A two-state effect used to witness the auto-reset theorem: done exactly
when its state is `true`; resetting flips it to `false`. -/
def toggleEffect : PEffect :=
  ⟨Bool, ⟨fun b => (b, [(0, 0, if b then 1 else 1/2)]), fun _ => false, fun b => b⟩, true⟩

/-- Witness for C1 at a concrete one-layer compositor whose effect starts
done. -/
theorem layered_step_auto_resets_done_layers_witness :
    (LayeredEffect.step [⟨toggleEffect, BlendMode.MAX⟩]).2
      = dictToFrame (compositeOfFrames []
          ([⟨toggleEffect, BlendMode.MAX⟩].map (fun l => (l.blend, layerOutFrame l))))
    ∧ layerOutFrame ⟨toggleEffect, BlendMode.MAX⟩
      = (toggleEffect.ops.step (toggleEffect.ops.reset toggleEffect.st)).2 :=
  ⟨(layered_step_auto_resets_done_layers [⟨toggleEffect, BlendMode.MAX⟩]).1,
    (layered_step_auto_resets_done_layers [⟨toggleEffect, BlendMode.MAX⟩]).2
      ⟨toggleEffect, BlendMode.MAX⟩ rfl⟩

/-- A continuous effect emitting a single fixed-brightness sample at `(0, 0)`
each tick, used for the order-sensitivity test. -/
def constPointEffect (b : ℚ) : PEffect :=
  ⟨Unit, ⟨fun u => (u, [(0, 0, b)]), fun u => u, fun _ => false⟩, ()⟩

/-- C3: compositing a layer emitting `0.2` with mode OVERWRITE and a layer
emitting `0.9` with mode MAX at `(0, 0)` yields `0.9` in order `[L1, L2]` but
`0.2` in order `[L2, L1]`: layer-order blending is not commutative when modes
differ. -/
theorem compositor_layer_order_not_commutative :
    (LayeredEffect.step
        [⟨constPointEffect 0.2, BlendMode.OVERWRITE⟩,
         ⟨constPointEffect 0.9, BlendMode.MAX⟩]).2 = [(0, 0, 0.9)]
    ∧ (LayeredEffect.step
        [⟨constPointEffect 0.9, BlendMode.MAX⟩,
         ⟨constPointEffect 0.2, BlendMode.OVERWRITE⟩]).2 = [(0, 0, 0.2)] := by
  constructor
  · have h : (LayeredEffect.step
        [⟨constPointEffect 0.2, BlendMode.OVERWRITE⟩,
         ⟨constPointEffect 0.9, BlendMode.MAX⟩]).2 = [(0, 0, max 0.2 0.9)] := rfl
    rw [h, max_def]; norm_num
  · rfl

/-- The JSON-equivalent object written by `AnimationRecorder.save` and read
back by `BakedAnimation.reset`
(`EffectsEngine/runner.py` lines 107-120, `EffectsEngine/effects.py` lines 688-696):
`{version, width, height, fps, frame_count, frames}`. -/
structure AnimContainer : Type where
  version : Nat
  width : Nat
  height : Nat
  fps : ℚ
  frame_count : Nat
  frames : List Frame
deriving DecidableEq, Repr

/-- The playback state of `BakedAnimation`: the loaded frame list, the `loop`
flag from the constructor, the cursor `self.index` and the `self.done` flag. -/
structure BakedState : Type where
  frames : List Frame
  loop : Bool
  index : Nat
  done : Bool
deriving DecidableEq, Repr

/-- Embeds `BakedAnimation.reset` (`EffectsEngine/effects.py` lines 688-696):
the parsed container stands in for the decompressed JSON file; the method
reads only `data["frames"]` and initializes `index = 0`, `done = False`.
No other container field — in particular not `version` — is examined. -/
def BakedAnimation.reset (c : AnimContainer) (loop : Bool) : BakedState :=
  ⟨c.frames, loop, 0, false⟩

/-- Embeds `BakedAnimation.step` (`EffectsEngine/effects.py` lines 698-711).
`none` models the `IndexError` Python raises on `self.frames[self.index]`
when the cursor is out of range (only possible when `frames` is empty). -/
def BakedAnimation.step (s : BakedState) : Option (BakedState × Frame) :=
  if s.done then some (s, [])
  else
    match s.frames[s.index]? with
    | none => none
    | some frame =>
        let i := s.index + 1
        if i ≥ s.frames.length then
          if s.loop then some (⟨s.frames, s.loop, 0, s.done⟩, frame)
          else some (⟨s.frames, s.loop, i, true⟩, frame)
        else some (⟨s.frames, s.loop, i, s.done⟩, frame)

/-- Embeds `BakedAnimation.is_done`: returns the `done` flag. -/
def BakedAnimation.is_done (s : BakedState) : Bool := s.done

/-- Run `k` consecutive `step()` calls on a `BakedAnimation`, collecting the
returned frames in order; fails if any call raises. -/
def stepsFrom (s : BakedState) : Nat → Option (BakedState × List Frame)
  | 0 => some (s, [])
  | k + 1 =>
      match BakedAnimation.step s with
      | none => none
      | some (s1, f) =>
          match stepsFrom s1 k with
          | none => none
          | some (s2, fs) => some (s2, f :: fs)

/-- The recording loop of `AnimationRecorder.record`
(`EffectsEngine/runner.py` lines 96-103) after the single initial `reset()`:
call `step()` `n` times, appending each raw frame. -/
def recordSteps {σ : Type} (ops : EffectOps σ) : σ → Nat → σ × List Frame
  | st, 0 => (st, [])
  | st, n + 1 =>
      let r1 := ops.step st
      let r2 := recordSteps ops r1.1 n
      (r2.1, r1.2 :: r2.2)

/-- Embeds `AnimationRecorder.record(frames=n)`: reset the effect once, then
append each of the `n` `step()` frames. -/
def AnimationRecorder.record (e : PEffect) (n : Nat) : List Frame :=
  (recordSteps e.ops (e.ops.reset e.st) n).2

/-- Embeds `AnimationRecorder.save`: the serialized container carries
`version = 1`, the display geometry, the fps metadata, `frame_count =
len(frames)` and the literal frame list. -/
def AnimationRecorder.save (w h : Nat) (fps : ℚ) (frames : List Frame) : AnimContainer :=
  ⟨1, w, h, fps, frames.length, frames⟩

theorem recordSteps_length {σ : Type} (ops : EffectOps σ) :
    ∀ (n : Nat) (st : σ), ((recordSteps ops st n).2).length = n := by
  intro n
  induction n with
  | zero => intro st; rfl
  | succ m ih => intro st; simp [recordSteps, ih]

theorem record_length (e : PEffect) (n : Nat) :
    (AnimationRecorder.record e n).length = n :=
  recordSteps_length e.ops n (e.ops.reset e.st)

theorem step_of_done (s : BakedState) (h : s.done = true) :
    BakedAnimation.step s = some (s, []) := by
  rw [BakedAnimation.step, if_pos h]

theorem step_active (frames : List Frame) (lp : Bool) (i : Nat) (h : i < frames.length) :
    BakedAnimation.step ⟨frames, lp, i, false⟩
      = if i + 1 ≥ frames.length then
          (if lp then some (⟨frames, lp, 0, false⟩, frames[i])
           else some (⟨frames, lp, i + 1, true⟩, frames[i]))
        else some (⟨frames, lp, i + 1, false⟩, frames[i]) := by
  rw [BakedAnimation.step]
  simp [List.getElem?_eq_getElem h]

theorem stepsFrom_active (frames : List Frame) (lp : Bool) :
    ∀ (k i : Nat), i + k < frames.length →
      stepsFrom ⟨frames, lp, i, false⟩ k
        = some (⟨frames, lp, i + k, false⟩, (frames.drop i).take k) := by
  intro k
  induction k with
  | zero => intro i h; simp [stepsFrom]
  | succ m ih =>
      intro i h
      have hi : i < frames.length := by omega
      have hstep : BakedAnimation.step ⟨frames, lp, i, false⟩
          = some (⟨frames, lp, i + 1, false⟩, frames[i]) := by
        rw [step_active frames lp i hi, if_neg (by omega)]
      have hrec := ih (i + 1) (by omega)
      have hidx : i + 1 + m = i + (m + 1) := by omega
      rw [stepsFrom, hstep]
      simp only [hrec, hidx, List.drop_eq_getElem_cons hi, List.take_succ_cons]

theorem step_last_no_loop (frames : List Frame) (i : Nat) (h : i + 1 = frames.length) :
    BakedAnimation.step ⟨frames, false, i, false⟩
      = some (⟨frames, false, i + 1, true⟩, frames.getD i []) := by
  have hi : i < frames.length := by omega
  rw [step_active frames false i hi, if_pos (by omega)]
  simp [List.getD_eq_getElem?_getD, List.getElem?_eq_getElem hi]

theorem stepsFrom_add (a b : Nat) :
    ∀ s : BakedState,
      stepsFrom s (a + b)
        = match stepsFrom s a with
          | none => none
          | some (s1, fs) =>
              match stepsFrom s1 b with
              | none => none
              | some (s2, fs2) => some (s2, fs ++ fs2) := by
  induction a with
  | zero =>
      intro s
      cases h : stepsFrom s b <;> simp [stepsFrom, h]
  | succ m ih =>
      intro s
      have hadd : m + 1 + b = (m + b) + 1 := by omega
      rw [hadd, stepsFrom, stepsFrom]
      cases hs : BakedAnimation.step s with
      | none => rfl
      | some p =>
          obtain ⟨s1, f⟩ := p
          dsimp only
          rw [ih s1]
          cases h1 : stepsFrom s1 m with
          | none => rfl
          | some q =>
              obtain ⟨s2, fs⟩ := q
              dsimp only
              cases h2 : stepsFrom s2 b with
              | none => rfl
              | some r =>
                  obtain ⟨s3, fs3⟩ := r
                  rfl

/-- C2: recording `n ≥ 1` frames (reset once, then append each raw `step()`
frame), saving, and replaying through a `BakedAnimation` with `loop = false`
returns exactly the recorded frames on the first `n` player calls; `is_done`
is still false at the start of each of those calls, the state reached after
call `n` is done, and the call after the last frame (and every later call)
returns the empty frame. -/
theorem recorder_player_roundtrip (e : PEffect) (w h : Nat) (fps : ℚ) (n : Nat)
    (hn : 1 ≤ n) :
    stepsFrom (BakedAnimation.reset
        (AnimationRecorder.save w h fps (AnimationRecorder.record e n)) false) n
      = some (⟨AnimationRecorder.record e n, false, n, true⟩, AnimationRecorder.record e n)
    ∧ (∀ k, k < n →
        stepsFrom (BakedAnimation.reset
            (AnimationRecorder.save w h fps (AnimationRecorder.record e n)) false) k
          = some (⟨AnimationRecorder.record e n, false, k, false⟩,
              (AnimationRecorder.record e n).take k)
        ∧ BakedAnimation.is_done ⟨AnimationRecorder.record e n, false, k, false⟩ = false)
    ∧ BakedAnimation.step ⟨AnimationRecorder.record e n, false, n, true⟩
      = some (⟨AnimationRecorder.record e n, false, n, true⟩, []) := by
  set frames := AnimationRecorder.record e n with hf
  have hlen : frames.length = n := record_length e n
  have hreset : BakedAnimation.reset (AnimationRecorder.save w h fps frames) false
      = ⟨frames, false, 0, false⟩ := rfl
  rw [hreset]
  refine ⟨?_, ?_, step_of_done _ rfl⟩
  · obtain ⟨m, rfl⟩ : ∃ m, n = m + 1 := ⟨n - 1, by omega⟩
    have hm : m < frames.length := by omega
    rw [stepsFrom_add m 1 _]
    have h1 : stepsFrom ⟨frames, false, 0, false⟩ m
        = some (⟨frames, false, m, false⟩, frames.take m) := by
      have := stepsFrom_active frames false m 0 (by omega)
      simpa using this
    rw [h1]
    dsimp only
    have h2 : stepsFrom ⟨frames, false, m, false⟩ 1
        = some (⟨frames, false, m + 1, true⟩, [frames.getD m []]) := by
      rw [stepsFrom, step_last_no_loop frames m (by omega)]
      rfl
    rw [h2]
    dsimp only
    have h3 : frames.take m ++ [frames.getD m []] = frames := by
      have hget : frames.getD m [] = frames[m] := by
        simp [List.getD_eq_getElem?_getD, List.getElem?_eq_getElem hm]
      rw [hget]
      have := List.take_concat_get frames m hm
      calc frames.take m ++ [frames[m]] = frames.take (m + 1) := by
            rw [List.take_succ, List.getElem?_eq_getElem hm]; rfl
        _ = frames := List.take_of_length_le (by omega)
    rw [h3]
  · intro k hk
    refine ⟨?_, rfl⟩
    have := stepsFrom_active frames false k 0 (by omega)
    simpa using this

/-- A deterministic effect for witnesses: counts up from zero after reset and
emits its counter as the brightness of the single sample `(0, 0)`. -/
def counterEffect : PEffect :=
  ⟨Nat, ⟨fun c => (c + 1, [(0, 0, (c : ℚ))]), fun _ => 0, fun _ => false⟩, 5⟩

/-- Witness for C2 at the concrete deterministic `counterEffect` with `n = 2`. -/
theorem recorder_player_roundtrip_witness :
    (1 ≤ 2)
    ∧ (stepsFrom (BakedAnimation.reset
          (AnimationRecorder.save 7 7 25 (AnimationRecorder.record counterEffect 2)) false) 2
        = some (⟨AnimationRecorder.record counterEffect 2, false, 2, true⟩,
            AnimationRecorder.record counterEffect 2)
      ∧ (∀ k, k < 2 →
          stepsFrom (BakedAnimation.reset
              (AnimationRecorder.save 7 7 25 (AnimationRecorder.record counterEffect 2)) false) k
            = some (⟨AnimationRecorder.record counterEffect 2, false, k, false⟩,
                (AnimationRecorder.record counterEffect 2).take k)
          ∧ BakedAnimation.is_done
              ⟨AnimationRecorder.record counterEffect 2, false, k, false⟩ = false)
      ∧ BakedAnimation.step ⟨AnimationRecorder.record counterEffect 2, false, 2, true⟩
        = some (⟨AnimationRecorder.record counterEffect 2, false, 2, true⟩, [])) :=
  ⟨by norm_num, recorder_player_roundtrip counterEffect 7 7 25 2 (by norm_num)⟩

theorem stepsFrom_loop (frames : List Frame) :
    ∀ (k i : Nat), i < frames.length →
      stepsFrom ⟨frames, true, i, false⟩ k
        = some (⟨frames, true, (i + k) % frames.length, false⟩,
            (List.range k).map (fun j => frames.getD ((i + j) % frames.length) [])) := by
  intro k
  induction k with
  | zero => intro i h; simp [stepsFrom, Nat.mod_eq_of_lt h]
  | succ m ih =>
      intro i h
      have hlen : 0 < frames.length := by omega
      have hstep : BakedAnimation.step ⟨frames, true, i, false⟩
          = some (⟨frames, true, (i + 1) % frames.length, false⟩, frames[i]) := by
        rw [step_active frames true i h]
        by_cases hc : i + 1 ≥ frames.length
        · have he : i + 1 = frames.length := by omega
          rw [if_pos hc, if_pos rfl, he, Nat.mod_self]
        · rw [if_neg hc, Nat.mod_eq_of_lt (by omega)]
      have hi1 : (i + 1) % frames.length < frames.length := Nat.mod_lt _ hlen
      have hrec := ih ((i + 1) % frames.length) hi1
      have hidx : ((i + 1) % frames.length + m) % frames.length
          = (i + (m + 1)) % frames.length := by
        rw [Nat.mod_add_mod]
        have he : i + 1 + m = i + (m + 1) := by omega
        rw [he]
      have houts : (List.range (m + 1)).map
            (fun j => frames.getD ((i + j) % frames.length) [])
          = frames[i] :: (List.range m).map
              (fun j => frames.getD (((i + 1) % frames.length + j) % frames.length) []) := by
        rw [List.range_succ_eq_map, List.map_cons, List.map_map]
        have hhead : frames.getD ((i + 0) % frames.length) [] = frames[i] := by
          simp [Nat.mod_eq_of_lt h, List.getD_eq_getElem?_getD, List.getElem?_eq_getElem h]
        rw [hhead]
        refine congrArg _ (List.map_congr_left ?_)
        intro j _
        show frames.getD ((i + (j + 1)) % frames.length) []
          = frames.getD (((i + 1) % frames.length + j) % frames.length) []
        rw [Nat.mod_add_mod]
        have he : i + (j + 1) = i + 1 + j := by omega
        rw [he]
      rw [stepsFrom, hstep]
      dsimp only
      rw [hrec, hidx, houts]

/-- C8: a `BakedAnimation` with `loop = true` over a non-empty frame list
cycles forever: the `k`-th `step()` call returns `frames[k mod len]` — so the
call immediately after the one that emitted the last recorded frame returns
the first recorded frame again — and `is_done()` is false in every reachable
state. -/
theorem baked_loop_wraps_never_done (c : AnimContainer) (hne : c.frames ≠ []) (k : Nat) :
    stepsFrom (BakedAnimation.reset c true) k
      = some (⟨c.frames, true, k % c.frames.length, false⟩,
          (List.range k).map (fun j => c.frames.getD (j % c.frames.length) []))
    ∧ BakedAnimation.is_done ⟨c.frames, true, k % c.frames.length, false⟩ = false := by
  have hlen : 0 < c.frames.length := List.length_pos.mpr hne
  refine ⟨?_, rfl⟩
  have := stepsFrom_loop c.frames k 0 hlen
  simpa using this

/-- A concrete two-frame recorded animation used by the loop witness. -/
def loopDemoContainer : AnimContainer :=
  ⟨1, 2, 1, 25, 2, [[(0, 0, 1)], [(1, 0, 1/2)]]⟩

/-- Witness for C8: three looping steps over the two-frame container wrap the
cursor back past the end. -/
theorem baked_loop_wraps_never_done_witness :
    (loopDemoContainer.frames ≠ [])
    ∧ (stepsFrom (BakedAnimation.reset loopDemoContainer true) 3
        = some (⟨loopDemoContainer.frames, true, 3 % loopDemoContainer.frames.length, false⟩,
            (List.range 3).map
              (fun j => loopDemoContainer.frames.getD (j % loopDemoContainer.frames.length) []))
      ∧ BakedAnimation.is_done
          ⟨loopDemoContainer.frames, true, 3 % loopDemoContainer.frames.length, false⟩
        = false) :=
  ⟨by simp [loopDemoContainer],
    baked_loop_wraps_never_done loopDemoContainer (by simp [loopDemoContainer]) 3⟩

/-- A recorded-animation container carrying an unknown version number. -/
def containerV999 : AnimContainer := ⟨999, 7, 7, 25, 1, [[(0, 0, 1)]]⟩

/-- C7 counterexample: loading a container whose version is the unknown value
999 does not fail — `BakedAnimation.reset` produces exactly the state the
version-1 container with the same frames produces, and the subsequent
`step()` plays the frame normally.  The loader never inspects the version
field. -/
theorem baked_load_unknown_version_succeeds :
    BakedAnimation.reset containerV999 false
      = BakedAnimation.reset ⟨1, 7, 7, 25, 1, [[(0, 0, 1)]]⟩ false
    ∧ BakedAnimation.step (BakedAnimation.reset containerV999 false)
      = some (⟨[[(0, 0, 1)]], false, 1, true⟩, [(0, 0, 1)]) :=
  ⟨rfl, rfl⟩

/-- C7 amended: `BakedAnimation.reset` reads only the `frames` field of the
loaded container — two containers with the same frames load identically, so
the version field is never checked and an unknown version is silently
accepted. -/
theorem baked_load_depends_only_on_frames (c c2 : AnimContainer) (lp : Bool)
    (h : c.frames = c2.frames) :
    BakedAnimation.reset c lp = BakedAnimation.reset c2 lp := by
  rw [BakedAnimation.reset, BakedAnimation.reset, h]

/-- Witness for the amended C7 at two concrete containers that differ in
every metadata field but share their frames. -/
theorem baked_load_depends_only_on_frames_witness :
    (containerV999.frames = (⟨1, 3, 4, 30, 5, [[(0, 0, 1)]]⟩ : AnimContainer).frames)
    ∧ BakedAnimation.reset containerV999 false
      = BakedAnimation.reset ⟨1, 3, 4, 30, 5, [[(0, 0, 1)]]⟩ false :=
  ⟨rfl, baked_load_depends_only_on_frames containerV999 ⟨1, 3, 4, 30, 5, [[(0, 0, 1)]]⟩ false rfl⟩

/-- The mutable state of `ScannerSweep` (`EffectsEngine/effects.py` lines
528-591).  `done` models the `self.done` attribute: it is written by `step()`
in the `bounce=False` branch but never initialized by `reset()` and never
read anywhere; absence of the attribute before the first write is modelled
as `false`. -/
structure ScannerState : Type where
  width : Nat
  height : Nat
  horizontal : Bool
  speed : Int
  trail_length : Nat
  bounce : Bool
  bounces : Nat
  pos : Int
  x_direction : Int
  trail : List Int
  done : Bool
deriving DecidableEq, Repr

/-- Embeds `ScannerSweep.reset`: `pos = 0`, `x_direction = 1`, fresh trail
deque.  Note it touches neither `_bounces` nor `done`. -/
def ScannerSweep.reset (s : ScannerState) : ScannerState :=
  ⟨s.width, s.height, s.horizontal, s.speed, s.trail_length, s.bounce,
    s.bounces, 0, 1, [], s.done⟩

/-- Embeds the `ScannerSweep` constructor: store configuration, zero
`_bounces`, then `reset()`. -/
def ScannerSweep.init (w h : Nat) (horizontal : Bool) (speed : Int)
    (trail_length : Nat) (bounce : Bool) : ScannerState :=
  ScannerSweep.reset ⟨w, h, horizontal, speed, trail_length, bounce, 0, 0, 1, [], false⟩

/-- The pixel-emission loop of `ScannerSweep.step`: each trail entry lights a
full column (horizontal sweep) or row (vertical sweep) with quadratically
fading brightness `max(0.05, (1 - i/trail_length)^2)`. -/
def scannerPixels (horizontal : Bool) (w h : Nat) (trail_length : Nat)
    (trail : List Int) : Frame :=
  trail.enum.flatMap (fun p =>
    let brightness : ℚ := max 0.05 ((1 - (p.1 : ℚ) / (trail_length : ℚ)) ^ 2)
    if horizontal then (List.range h).map (fun y => (p.2, (y : Int), brightness))
    else (List.range w).map (fun x => ((x : Int), p.2, brightness)))

/-- Embeds `ScannerSweep.step`: advance `pos` by `x_direction * speed`; when
it leaves `[0, limit]`, either bounce (negate direction and re-advance,
counting the bounce) or — with `bounce=False` — set `pos = 0` and write
`self.done = True`; push the new position onto the bounded trail and emit the
trail pixels.  There is no early return on `done` in this variant. -/
def ScannerSweep.step (s : ScannerState) : ScannerState × Frame :=
  let limit : Int := (if s.horizontal then (s.width : Int) else (s.height : Int)) - 1
  let pos1 : Int := s.pos + s.x_direction * s.speed
  let r : Int × Int × Nat × Bool :=
    if pos1 < 0 ∨ pos1 > limit then
      if s.bounce then
        (pos1 + -s.x_direction * s.speed, -s.x_direction, s.bounces + 1, s.done)
      else (0, s.x_direction, s.bounces, true)
    else (pos1, s.x_direction, s.bounces, s.done)
  let trail2 := (r.1 :: s.trail).take s.trail_length
  (⟨s.width, s.height, s.horizontal, s.speed, s.trail_length, s.bounce,
      r.2.2.1, r.1, r.2.1, trail2, r.2.2.2⟩,
    scannerPixels s.horizontal s.width s.height s.trail_length trail2)

/-- Embeds `ScannerSweep.is_done` exactly as written in
`EffectsEngine/effects.py` lines 590-591: it ignores all state and returns
`False`. -/
def ScannerSweep.is_done (_ : ScannerState) : Bool := false

/-- Iterate `ScannerSweep.step`, keeping only the state. -/
def ScannerSweep.stepN (s : ScannerState) : Nat → ScannerState
  | 0 => s
  | n + 1 => ScannerSweep.stepN (ScannerSweep.step s).1 n

/-- C6 (code bug): a 3-wide horizontal `ScannerSweep` with `speed=1` and
`bounce=False` crosses its right edge on the third step; `step()` records the
terminal condition by writing `self.done = True`, yet `is_done()` still
returns `False` — indeed `is_done()` returns `False` in every state, so the
effect can never report completion as the claim (and the sibling variant in
`src/effects_engine.py`, whose `is_done` returns `self.done`) requires. -/
theorem scanner_no_bounce_never_reports_done :
    (ScannerSweep.stepN (ScannerSweep.init 3 1 true 1 5 false) 3).done = true
    ∧ ScannerSweep.is_done (ScannerSweep.stepN (ScannerSweep.init 3 1 true 1 5 false) 3) = false
    ∧ ∀ s : ScannerState, ScannerSweep.is_done s = false :=
  ⟨rfl, rfl, fun _ => rfl⟩

/-- Embeds `EffectRunner.apply_transformation`
(`EffectsEngine/runner.py` lines 42-45): brightness inversion when enabled. -/
def apply_transformation (invert : Bool) (b : ℚ) : ℚ :=
  if invert then 1 - b else b

/-- The dict comprehension `{(x, y): b for x, y, b in effect.step()}` of
`EffectRunner.run`: later samples at the same coordinate overwrite earlier
ones. -/
def buildFrameDict (samples : Frame) : PixelDict :=
  samples.foldl (fun d s => dictSet d (s.1, s.2.1) s.2.2) []

/-- The value `EffectRunner.run` writes to display pixel `(x, y)`:
`clamp01(apply_transformation(frame_pixels.get((x, y), 0.0)))`. -/
def EffectRunner.pixelValue (invert : Bool) (samples : Frame) (x y : Nat) : ℚ :=
  clamp01 (apply_transformation invert (dictGet (buildFrameDict samples) ((x : Int), (y : Int))))

/-- The per-frame display push of `EffectRunner.run`
(`EffectsEngine/runner.py` lines 51-62): after `clear()`, every grid pixel
`(x, y)` with `x < width`, `y < height` receives its computed value via
`set_pixel`. -/
def EffectRunner.pushFrame (invert : Bool) (w h : Nat) (samples : Frame) :
    List (Nat × Nat × ℚ) :=
  (List.range w).flatMap (fun x =>
    (List.range h).map (fun y => (x, y, EffectRunner.pixelValue invert samples x y)))

theorem dictGet_dictSet_ne (d : PixelDict) (k k2 : Int × Int) (v : ℚ) (h : k2 ≠ k) :
    dictGet (dictSet d k2 v) k = dictGet d k := by
  induction d with
  | nil => simp [dictSet, dictGet, h]
  | cons p rest ih =>
      by_cases hp : p.1 = k2
      · rw [dictSet, if_pos hp, dictGet, if_neg h, dictGet, if_neg (hp ▸ h)]
      · rw [dictSet, if_neg hp, dictGet, dictGet]
        by_cases hk : p.1 = k
        · rw [if_pos hk, if_pos hk]
        · rw [if_neg hk, if_neg hk, ih]

theorem dictGet_foldl_oob (k : Int × Int) :
    ∀ (extra : Frame) (d : PixelDict), (∀ p ∈ extra, (p.1, p.2.1) ≠ k) →
      dictGet (extra.foldl (fun d2 s => dictSet d2 (s.1, s.2.1) s.2.2) d) k = dictGet d k := by
  intro extra
  induction extra with
  | nil => intro d _; rfl
  | cons p rest ih =>
      intro d hall
      rw [List.foldl_cons, ih _ (fun q hq => hall q (List.mem_cons_of_mem p hq))]
      exact dictGet_dictSet_ne d k (p.1, p.2.1) p.2.2 (hall p (List.mem_cons_self p rest))

/-- C9 counterexample: an `EffectRunner` with inversion enabled, pushing a
frame with zero samples on a 1×1 display, sets pixel `(0, 0)` to brightness
`1`, not `0`: the missing sample defaults to `0` *before* the inversion, and
`clamp01(1 - 0) = 1`. -/
theorem runner_inverted_empty_frame_sets_one :
    EffectRunner.pushFrame true 1 1 [] = [(0, 0, 1)]
    ∧ EffectRunner.pixelValue true [] 0 0 = 1 := by
  have hv : EffectRunner.pixelValue true [] 0 0 = 1 := by
    rw [EffectRunner.pixelValue]
    norm_num [buildFrameDict, dictGet, apply_transformation, clamp01, min_def, max_def]
  exact ⟨by simp [EffectRunner.pushFrame, List.range_succ, hv], hv⟩

/-- C9 amended: every in-range pixel `(x, y)` is pushed with value
`clamp01(apply_transformation(invert, b))` where `b` is the frame's brightness
at `(x, y)` and a missing sample contributes `b = 0` *before* inversion;
samples outside `[0,w)×[0,h)` are silently dropped (they change no in-range
pixel and raise no error); with inversion disabled an empty frame clears
every pixel to `0`, while with inversion enabled it sets every pixel to `1`. -/
theorem runner_pixel_semantics (invert : Bool) (w h x y : Nat) (samples extra : Frame)
    (hx : x < w) (hy : y < h)
    (hextra : ∀ p ∈ extra, p.1 < 0 ∨ (w : Int) ≤ p.1 ∨ p.2.1 < 0 ∨ (h : Int) ≤ p.2.1) :
    EffectRunner.pixelValue invert (samples ++ extra) x y
      = EffectRunner.pixelValue invert samples x y
    ∧ (x, y, EffectRunner.pixelValue invert (samples ++ extra) x y)
        ∈ EffectRunner.pushFrame invert w h (samples ++ extra)
    ∧ (∀ b : ℚ, EffectRunner.pixelValue invert [((x : Int), (y : Int), b)] x y
        = clamp01 (apply_transformation invert b))
    ∧ EffectRunner.pixelValue false [] x y = 0
    ∧ EffectRunner.pixelValue true [] x y = 1 := by
  have key : ∀ p ∈ extra, (p.1, p.2.1) ≠ ((x : Int), (y : Int)) := by
    intro p hp hcon
    have h1 : p.1 = (x : Int) := congrArg Prod.fst hcon
    have h2 : p.2.1 = (y : Int) := congrArg Prod.snd hcon
    rcases hextra p hp with hb | hb | hb | hb <;> omega
  refine ⟨?_, ?_, ?_, ?_, ?_⟩
  · rw [EffectRunner.pixelValue, EffectRunner.pixelValue, buildFrameDict, buildFrameDict,
      List.foldl_append]
    rw [dictGet_foldl_oob ((x : Int), (y : Int)) extra _ key]
  · simp only [EffectRunner.pushFrame, List.mem_flatMap, List.mem_map, List.mem_range]
    exact ⟨x, hx, y, hy, rfl⟩
  · intro b
    rw [EffectRunner.pixelValue, buildFrameDict]
    simp [dictSet, dictGet]
  · rw [EffectRunner.pixelValue]
    norm_num [buildFrameDict, dictGet, apply_transformation, clamp01]
  · rw [EffectRunner.pixelValue]
    norm_num [buildFrameDict, dictGet, apply_transformation, clamp01, min_def, max_def]

/-- Witness for the amended C9 on a 2×2 display with one in-range sample and
two out-of-range samples. -/
theorem runner_pixel_semantics_witness :
    ((0 : ℕ) < 2 ∧ (1 : ℕ) < 2
      ∧ ∀ p ∈ ([(-1, 0, 5), (3, 1, 2)] : Frame),
          p.1 < 0 ∨ ((2 : ℕ) : Int) ≤ p.1 ∨ p.2.1 < 0 ∨ ((2 : ℕ) : Int) ≤ p.2.1)
    ∧ (EffectRunner.pixelValue true ([(0, 0, 1/2)] ++ [(-1, 0, 5), (3, 1, 2)]) 0 1
        = EffectRunner.pixelValue true [(0, 0, 1/2)] 0 1
      ∧ ((0 : ℕ), (1 : ℕ), EffectRunner.pixelValue true ([(0, 0, 1/2)] ++ [(-1, 0, 5), (3, 1, 2)]) 0 1)
          ∈ EffectRunner.pushFrame true 2 2 ([(0, 0, 1/2)] ++ [(-1, 0, 5), (3, 1, 2)])
      ∧ (∀ b : ℚ, EffectRunner.pixelValue true [(((0 : ℕ) : Int), ((1 : ℕ) : Int), b)] 0 1
          = clamp01 (apply_transformation true b))
      ∧ EffectRunner.pixelValue false [] 0 1 = 0
      ∧ EffectRunner.pixelValue true [] 0 1 = 1) :=
  ⟨⟨by norm_num, by norm_num, by decide⟩,
    runner_pixel_semantics true 2 2 0 1 [(0, 0, 1/2)] [(-1, 0, 5), (3, 1, 2)]
      (by norm_num) (by norm_num) (by decide)⟩

/-- The mutable state of `Sparkle` (`EffectsEngine/effects.py` lines 141-186,
identical in `src/effects_engine.py`).  `fixed_speed` is the constructor's
`speed` argument with `0` standing for Python's falsy `None`/`0` (both make
`self._fixed_speed or randint(10, 50)` pick the random draw). -/
structure SparkleState : Type where
  x : Int
  y : Int
  fixed_speed : Nat
  step_count : Nat
  speed : Nat
  max_steps : Nat
  brightness : ℚ

/-- Embeds `Sparkle.reset`: `step_count = randint(0, 50)` and
`speed = self._fixed_speed or randint(10, 50)`, with the two random draws
passed in as oracle arguments `r` (intended range `0..50`) and `rs`
(intended range `10..50`); `max_steps = speed`, `brightness = 1`.
Note the `step_count` draw ranges over `0..50` regardless of `max_steps`. -/
def Sparkle.reset (s : SparkleState) (r rs : Nat) : SparkleState :=
  ⟨s.x, s.y, s.fixed_speed, r,
    (if s.fixed_speed ≠ 0 then s.fixed_speed else rs),
    (if s.fixed_speed ≠ 0 then s.fixed_speed else rs), 1⟩

/-- Embeds `Sparkle.step`: emit `sin((step_count / max_steps) · π)` at the
sparkle's pixel — computed from the *old* `step_count`, with no clamping —
then increment `step_count` and silently `reset()` (with fresh oracle draws
`r`, `rs`) once it exceeds `max_steps`. -/
noncomputable def Sparkle.step (s : SparkleState) (r rs : Nat) :
    SparkleState × List (Int × Int × ℝ) :=
  let t : ℝ := (s.step_count : ℝ) / (s.max_steps : ℝ)
  let b : ℝ := Real.sin (t * Real.pi)
  let s1 : SparkleState :=
    ⟨s.x, s.y, s.fixed_speed, s.step_count + 1, s.speed, s.max_steps, s.brightness⟩
  let s2 := if s1.step_count > s.max_steps then Sparkle.reset s1 r rs else s1
  (s2, [(s.x, s.y, b)])

/-- C10: with any fixed speed `0 < s < 50`, `reset()` can draw an initial
`step_count = c` with `s < c < 2s` from its `0..50` range (independent of
`max_steps = s`), and the first `step()` from that reachable state returns
the unclamped sample brightness `sin((c/s)·π)`, which is strictly
negative. -/
theorem sparkle_reachable_negative_brightness (x y : Int) (s c r rs rs2 : Nat)
    (hs0 : 0 < s) (hs50 : s < 50) (hc50 : c ≤ 50) (hsc : s < c) (hc2 : c < 2 * s) :
    (Sparkle.reset ⟨x, y, s, 0, 0, 0, 1⟩ c rs2).step_count = c
    ∧ (Sparkle.reset ⟨x, y, s, 0, 0, 0, 1⟩ c rs2).max_steps = s
    ∧ (Sparkle.step (Sparkle.reset ⟨x, y, s, 0, 0, 0, 1⟩ c rs2) r rs).2
        = [(x, y, Real.sin (((c : ℝ) / (s : ℝ)) * Real.pi))]
    ∧ Real.sin (((c : ℝ) / (s : ℝ)) * Real.pi) < 0 := by
  have hsne : s ≠ 0 := by omega
  have hreset : Sparkle.reset ⟨x, y, s, 0, 0, 0, 1⟩ c rs2 = ⟨x, y, s, c, s, s, 1⟩ := by
    rw [Sparkle.reset]
    simp [hsne]
  have hneg : Real.sin (((c : ℝ) / (s : ℝ)) * Real.pi) < 0 := by
    set t : ℝ := (c : ℝ) / (s : ℝ) with ht
    have hs0' : (0 : ℝ) < (s : ℝ) := by exact_mod_cast hs0
    have h1 : 1 < t := (one_lt_div hs0').mpr (by exact_mod_cast hsc)
    have h2 : t < 2 := by
      rw [ht, div_lt_iff hs0']
      have : (c : ℝ) < 2 * (s : ℝ) := by exact_mod_cast hc2
      linarith
    have key : t * Real.pi = (t - 1) * Real.pi + Real.pi := by ring
    rw [key, Real.sin_antiperiodic ((t - 1) * Real.pi)]
    apply neg_lt_zero.mpr
    apply Real.sin_pos_of_pos_of_lt_pi
    · exact mul_pos (by linarith) Real.pi_pos
    · have := mul_lt_mul_of_pos_right (show t - 1 < 1 by linarith) Real.pi_pos
      simpa using this
  refine ⟨by rw [hreset], by rw [hreset], ?_, hneg⟩
  rw [hreset]
  rfl

/-- Witness for C10: speed 30, initial draw 40 — the first step emits
`sin((40/30)·π) < 0`. -/
theorem sparkle_reachable_negative_brightness_witness :
    ((0 : ℕ) < 30 ∧ (30 : ℕ) < 50 ∧ (40 : ℕ) ≤ 50 ∧ (30 : ℕ) < 40 ∧ (40 : ℕ) < 2 * 30)
    ∧ ((Sparkle.reset ⟨2, 3, 30, 0, 0, 0, 1⟩ 40 10).step_count = 40
      ∧ (Sparkle.reset ⟨2, 3, 30, 0, 0, 0, 1⟩ 40 10).max_steps = 30
      ∧ (Sparkle.step (Sparkle.reset ⟨2, 3, 30, 0, 0, 0, 1⟩ 40 10) 0 10).2
          = [(2, 3, Real.sin ((((40 : ℕ) : ℝ) / ((30 : ℕ) : ℝ)) * Real.pi))]
      ∧ Real.sin ((((40 : ℕ) : ℝ) / ((30 : ℕ) : ℝ)) * Real.pi) < 0) :=
  ⟨⟨by norm_num, by norm_num, by norm_num, by norm_num, by norm_num⟩,
    sparkle_reachable_negative_brightness 2 3 30 40 0 10 10
      (by norm_num) (by norm_num) (by norm_num) (by norm_num) (by norm_num)⟩

end MiniScroll
